import Mathlib

/-!
Verification development for the MODIS albedo prior aggregation pipeline
(`albedo_pix.py`).  The per-pixel quality-flag decoding (`getModisAlbedo`),
the zero-aware downsampler (`shrunk` / `rebin`), the per-file accumulation
step (`incrementSamples`) and the final moment computation
(`calculateStats`) are embedded shallowly.

Conventions of the embedding:
- floating point values are modelled as exact rationals where the source
  performs only field operations, and as real numbers where the source
  calls `np.sqrt`;
- 2-D arrays are total functions `ℕ → ℕ → _`; the extents `ns`, `nl` only
  matter where the source reduces over an array, in which case the
  reduction ranges over `Finset.range`;
- a Python exception is an `Except.error`; in particular the
  `self.ogging` attribute access in `incrementSamples` (a typo for
  `self.logging`) raises `AttributeError` whenever the corrupt-pixel
  branch is entered, and is modelled by an error return;
- numpy fancy indexing on the left of an augmented assignment after a
  prior fancy index (`sdData[ww][samp>sqmax] = ...`) writes into a copy;
  such statements have no effect on the returned arrays and therefore
  have no counterpart in the embedding (comments mark the spots).
-/

namespace AlbedoPix

/-! ### FlagDecoder: per-pixel part of `getModisAlbedo` (src lines 533-628)

The four QA planes and the reflectance planes are read per pixel; all of
the mask logic in `getModisAlbedo` is elementwise, so one pixel is
modelled at a time. -/

/-- Raw per-pixel inputs of one file: the `BRDF_Albedo_Quality` value,
the `Snow_BRDF_Albedo` value, the `BRDF_Albedo_Ancillary` value, the
`BRDF_Albedo_Band_Quality` value, and the raw reflectance parameter
values `refl band param` for each band. -/
structure PixelRaw where
  qa1 : ℕ
  snowv : ℕ
  anc : ℕ
  bandq : ℕ
  refl : ℕ → Fin 3 → ℤ

/-- Decoded per-pixel payload: the validity mask, masked land category,
the maxed band-quality exponent, the quality weight, the masked snow /
no-snow classification and the masked, scaled data. -/
structure DecodedPixel where
  mask : Bool
  land : ℕ
  bandQuality : ℕ
  weight : ℚ
  snowMask : Bool
  noSnowMask : Bool
  data : Fin 3 → ℕ → ℚ

/-- Fill sentinel of the reflectance planes (`duff = long(32767)`). -/
def duff : ℤ := 32767

/-- Per-pixel decode, following `getModisAlbedo` line by line:
fill checks on the quality and snow planes, land category from bits 4-7
of the ancillary plane (category 7 excluded), two 4-bit band-quality
nibbles (each must be `< 4`, the maximum of the two is kept), the
`duff` filter on every reflectance plane, the snow-type filtering, the
weight `backupscale ** band_quality`, and the final multiplications of
land, weight, snow masks and data by the validity mask. -/
def decodePixel (p : PixelRaw) (nBands : ℕ) (snow no_snow : Bool)
    (backupscale : ℚ) : DecodedPixel :=
  -- BRDF_Albedo_Quality: 255 is a Fill
  let good1 : Bool := p.qa1 != 255
  -- Snow_BRDF_Albedo: 255 is a Fill; snow mask is True for snow
  let good2 : Bool := good1 && (p.snowv != 255)
  let snowMask0 : Bool := p.snowv == 1
  let noSnowMask0 : Bool := p.snowv == 0
  -- BRDF_Albedo_Ancillary: land / water is bits 4-7; no deep ocean (7)
  let land0 : ℕ := (0b11110000 &&& p.anc) >>> 4
  let good3 : Bool := good2 && (land0 != 7)
  -- BRDF_Albedo_Band_Quality: low nibble, then the next nibble
  let bq1 : ℕ := p.bandq &&& 0b1111
  let qshift : ℕ := p.bandq >>> 4
  let good4 : Bool := good3 && decide (bq1 < 4)
  let bq2 : ℕ := qshift &&& 0b1111
  let good5 : Bool := good4 && decide (bq2 < 4)
  -- take the max
  let bqMax : ℕ := if bq1 < bq2 then bq2 else bq1
  -- reflectance data scaled by 1/1000, duff values filtered in each plane
  let dataRaw : Fin 3 → ℕ → ℚ := fun j i => (1 / 1000 : ℚ) * (p.refl i j : ℚ)
  let good6 : Bool :=
    good5 && decide (∀ i ∈ Finset.range nBands, ∀ j : Fin 3, p.refl i j ≠ duff)
  -- snow type filtering
  let good7 : Bool :=
    if snow && no_snow then good6
    else if snow then good6 && snowMask0
    else if no_snow then good6 && noSnowMask0
    else good6
  -- weight = backupscale ** band_quality
  let weight0 : ℚ := backupscale ^ bqMax
  let m : Bool := good7
  { mask := m
    land := land0 * (if m then 1 else 0)
    bandQuality := bqMax
    weight := weight0 * (if m then 1 else 0)
    snowMask := snowMask0 && m
    noSnowMask := noSnowMask0 && m
    data := fun j i => dataRaw j i * (if m then 1 else 0) }

/-! ### Downsampler: `rebin` and `shrunk` (src lines 997-1080) -/

/-- Block mean of `rebin` (`a.reshape(sh).mean(-1).mean(1)`): the mean
over the trailing sub-cell axis, then the mean over the leading sub-cell
axis, at output cell `(i, j)` with block factor `f`. -/
def rebin {α : Type} [Field α] (a : ℕ → ℕ → α) (f : ℕ) (i j : ℕ) : α :=
  (∑ p ∈ Finset.range f,
      (∑ q ∈ Finset.range f, a (i * f + p) (j * f + q)) / (f : α)) / (f : α)

/-- The mask `mdata` of the plain branch of `shrunk`: ones, zeroed where
the input is zero. -/
def nonzeroIndicator {α : Type} [Zero α] [One α] [DecidableEq α]
    (fdata : ℕ → ℕ → α) : ℕ → ℕ → α :=
  fun x y => if fdata x y = 0 then 0 else 1

/-- Plain mode of `shrunk` (no companion sd array, src lines 1047-1080):
identity for factor 1; otherwise `rebin`, rescaled by the block mean of
`nonzeroIndicator` on blocks where that mean is strictly between 0 and 1. -/
def shrunkPlain {α : Type} [LinearOrderedField α]
    (fdata : ℕ → ℕ → α) (ns nl shrink : ℕ) : ℕ → ℕ → α :=
  if shrink = 1 then fdata
  else fun i j =>
    if 0 < rebin (nonzeroIndicator fdata) shrink i j ∧
        rebin (nonzeroIndicator fdata) shrink i j < 1 then
      rebin fdata shrink i j / rebin (nonzeroIndicator fdata) shrink i j
    else rebin fdata shrink i j

/-- Full `shrunk` with the optional companion sd array (src lines
1006-1080).  Factor 1 returns both inputs unchanged.  Paired mode
weights each cell by inverse variance (zero variance or zero data value
giving zero weight), block-averages the weighted data, and recovers the
output sd as the square root of contributing-cell count over summed
inverse variance. -/
noncomputable def shrunk (fdata : ℕ → ℕ → ℝ) (ns nl shrink : ℕ)
    (sdata : Option (ℕ → ℕ → ℝ)) : (ℕ → ℕ → ℝ) × Option (ℕ → ℕ → ℝ) :=
  if shrink = 1 then (fdata, sdata)
  else
    match sdata with
    | some sd =>
      -- var = sdata**2, zeroed where fdata == 0
      let var : ℕ → ℕ → ℝ := fun x y => if fdata x y = 0 then 0 else sd x y ^ 2
      -- vscale = 1/var where var > 0
      let vscale : ℕ → ℕ → ℝ := fun x y => if 0 < var x y then 1 / var x y else 0
      let idata : ℕ → ℕ → ℝ := fun x y => fdata x y * vscale x y
      let shrunkData := rebin idata shrink
      let shrunkVar := rebin vscale shrink
      let odata : ℕ → ℕ → ℝ := fun i j =>
        if 0 < shrunkVar i j then shrunkData i j / shrunkVar i j else 0
      -- mdata = 1 where var > 0
      let n := rebin (fun x y => if 0 < var x y then (1 : ℝ) else 0) shrink
      let osdata : ℕ → ℕ → ℝ := fun i j =>
        if 0 < shrunkVar i j then Real.sqrt (n i j / shrunkVar i j) else 0
      (odata, some osdata)
    | none => (shrunkPlain fdata ns nl shrink, none)

/-! ### Spec-side description of zero-excluding block averaging.

These definitions follow the words of the specification ("the arithmetic
mean of just its non-zero sub-cells"), to be compared with `shrunkPlain`
which is translated from the source. -/

/-- Number of non-zero sub-cells of the `f × f` block at output cell
`(i, j)`. -/
def nonzeroCount (a : ℕ → ℕ → ℚ) (f i j : ℕ) : ℕ :=
  ∑ p ∈ Finset.range f, ∑ q ∈ Finset.range f,
    if a (i * f + p) (j * f + q) = 0 then 0 else 1

/-- Sum over the sub-cells of the `f × f` block at output cell `(i, j)`
(zero sub-cells contribute nothing, so this is also the sum over just the
non-zero sub-cells). -/
def blockSum (a : ℕ → ℕ → ℚ) (f i j : ℕ) : ℚ :=
  ∑ p ∈ Finset.range f, ∑ q ∈ Finset.range f, a (i * f + p) (j * f + q)

/-- Spec-side zero-excluding block average: zero for an entirely zero
block, otherwise the arithmetic mean over just the non-zero sub-cells. -/
def zeroExcludingMean (a : ℕ → ℕ → ℚ) (f i j : ℕ) : ℚ :=
  if nonzeroCount a f i j = 0 then 0
  else blockSum a f i j / (nonzeroCount a f i j : ℚ)

/-! ### Accumulator: `incrementSamples` (src lines 684-777)

One accumulator slot per file: the shrunk weight `n`, the
boolean-derived `nSamples` count, and the re-normalised shrunk `data`.
The accumulator is a map from the file slot index to its slot. -/

/-- One reserved slot of the accumulator, for one file.  Field index
order is `(band, sample, line, kernel parameter)`, matching the numpy
array shape `(nb, ns, nl, 3)`; `nSamples` has shape `(nb, ns, nl)`. -/
structure Slot (α : Type) where
  n : ℕ → ℕ → ℕ → Fin 3 → α
  nSamples : ℕ → ℕ → ℕ → ℤ
  data : ℕ → ℕ → ℕ → Fin 3 → α

/-- Accumulator state: one `Slot` per file slot index. -/
abbrev SumData (α : Type) := ℕ → Slot α

/-- The all-zero slot (`allocateData` zero-fills every array). -/
def zeroSlot : Slot ℚ :=
  { n := fun _ _ _ _ => 0
    nSamples := fun _ _ _ => 0
    data := fun _ _ _ _ => 0 }

/-- The freshly allocated accumulator of `allocateData`. -/
def zeroSumData : SumData ℚ := fun _ => zeroSlot

/-- The per-file decoded payload as consumed by `incrementSamples`:
extent, the snow code plane (`-1` no data, `0` snow free, `1` snow), the
sample count / weight plane `N`, and the data planes indexed
`(band, sample, line, kernel parameter)`. -/
structure Samples where
  ns : ℕ
  nl : ℕ
  nb : ℕ
  isSnow : ℕ → ℕ → ℤ
  N : ℕ → ℕ → ℚ
  data : ℕ → ℕ → ℕ → Fin 3 → ℚ

/-- Coverage-class filtering of the sample counts (src lines 722-734):
`isSnow = 0` keeps only snow-free pixels, `isSnow = 1` keeps only snow
pixels, anything else keeps every pixel with a data code. -/
def samplesNFiltered (s : Samples) (isSnow : ℤ) : ℕ → ℕ → ℚ :=
  fun x y =>
    if isSnow = 0 then (if s.isSnow x y ≠ 0 then 0 else s.N x y)
    else if isSnow = 1 then (if s.isSnow x y ≠ 1 then 0 else s.N x y)
    else (if s.isSnow x y = -1 then 0 else s.N x y)

/-- Sum of the first kernel parameter over all bands (src line 737). -/
def f0sum (s : Samples) : ℕ → ℕ → ℚ :=
  fun x y => ∑ i ∈ Finset.range s.nb, s.data i x y 0

/-- Whether some pixel of the grid is corrupt: first-parameter band sum
`≤ 0` while the coverage-filtered count is `> 0` (src line 739). -/
def corruptExists (s : Samples) (isSnow : ℤ) : Bool :=
  decide (∃ x ∈ Finset.range s.ns, ∃ y ∈ Finset.range s.nl,
    f0sum s x y ≤ 0 ∧ 0 < samplesNFiltered s isSnow x y)

/-- Total coverage-filtered sample count over the grid
(`samplesN.sum()`, src line 748; on the paths that reach this check the
corrupt-pixel zeroing did not fire, so `samplesN` is exactly the
coverage-filtered count). -/
def filteredSum (s : Samples) (isSnow : ℤ) : ℚ :=
  ∑ x ∈ Finset.range s.ns, ∑ y ∈ Finset.range s.nl, samplesNFiltered s isSnow x y

/-- The slot stored at `fileIndex` (src lines 752-775): the weight plane
broadcast from the filtered counts, shrunk per band and parameter; the
weighted data, shrunk the same way and re-normalised by the shrunk
weight where that is positive; and the boolean-to-int cast of the first
parameter plane of the shrunk weight. -/
def storedSlot (s : Samples) (isSnow : ℤ) (shrink : ℕ) : Slot ℚ :=
  let samplesN := samplesNFiltered s isSnow
  let weight : ℕ → ℕ → ℕ → Fin 3 → ℚ := fun _i x y _j => samplesN x y
  let sweight : ℕ → ℕ → ℕ → Fin 3 → ℚ := fun i x y j =>
    shrunkPlain (fun a b => weight i a b j) s.ns s.nl shrink x y
  let sweightdata : ℕ → ℕ → ℕ → Fin 3 → ℚ := fun i x y j =>
    s.data i x y j * weight i x y j
  let sdata0 : ℕ → ℕ → ℕ → Fin 3 → ℚ := fun i x y j =>
    shrunkPlain (fun a b => sweightdata i a b j) s.ns s.nl shrink x y
  let sdataN : ℕ → ℕ → ℕ → Fin 3 → ℚ := fun i x y j =>
    if 0 < sweight i x y j then sdata0 i x y j / sweight i x y j
    else sdata0 i x y j
  { n := sweight
    nSamples := fun i x y => if 0 < sweight i x y 0 then 1 else 0
    data := sdataN }

/-- `incrementSamples` (src lines 684-777).  If any corrupt pixel exists
the source zeroes its count and then evaluates `self.ogging.info(...)` —
an attribute that does not exist (a typo for `self.logging`) — so the
call raises `AttributeError` before anything is stored: modelled as an
error.  Otherwise, if the filtered total count is zero the accumulator
is returned unchanged, and otherwise slot `index` is overwritten with
the data of this sample. -/
def incrementSamples (sumData : SumData ℚ) (s : Samples) (isSnow : ℤ)
    (index : ℕ) (shrink : ℕ) : Except Unit (SumData ℚ) :=
  if corruptExists s isSnow then Except.error ()
  else if filteredSum s isSnow = 0 then Except.ok sumData
  else Except.ok (Function.update sumData index (storedSlot s isSnow shrink))

/-! ### StatsFinalizer: `calculateStats` (src lines 926-994)

All arithmetic is elementwise over `(band, sample, line, parameter)`
with reductions over the file-slot axis, so the embedding works over
real numbers (the variance floor stores `np.sqrt(self.minvar)`).  The
final four source lines (988-992) index `sdData` with `ww` and then
assign through a second fancy index; both assignments write into copies
and do not alter `sdData`, so they have no counterpart here. -/

/-- Total boolean sample count over the file slots (`sumN`). -/
noncomputable def sumN (nsets : ℕ) (sd : SumData ℝ) (b x y : ℕ) : ℤ :=
  ∑ f ∈ Finset.range nsets, (sd f).nSamples b x y

/-- Sum of `data * n` over the file slots (`total`). -/
noncomputable def totalWeighted (nsets : ℕ) (sd : SumData ℝ) (b x y : ℕ)
    (k : Fin 3) : ℝ :=
  ∑ f ∈ Finset.range nsets, (sd f).data b x y k * (sd f).n b x y k

/-- Total weight over the file slots (`ntot`). -/
noncomputable def ntot (nsets : ℕ) (sd : SumData ℝ) (b x y : ℕ) (k : Fin 3) : ℝ :=
  ∑ f ∈ Finset.range nsets, (sd f).n b x y k

/-- Sum of squared weights over the file slots (`ntot2`). -/
noncomputable def ntot2 (nsets : ℕ) (sd : SumData ℝ) (b x y : ℕ) (k : Fin 3) : ℝ :=
  ∑ f ∈ Finset.range nsets, (sd f).n b x y k ^ 2

/-- Weighted mean: `total/ntot` at pixels with positive `sumN`, zero
elsewhere (src lines 969-970). -/
noncomputable def meanData (nsets : ℕ) (sd : SumData ℝ) (b x y : ℕ) (k : Fin 3) : ℝ :=
  if 0 < sumN nsets sd b x y then
    totalWeighted nsets sd b x y k / ntot nsets sd b x y k
  else 0

/-- Weighted squared deviation sum (`var = np.sum(n*(diff**2), axis=0)`). -/
noncomputable def varRaw (nsets : ℕ) (sd : SumData ℝ) (b x y : ℕ) (k : Fin 3) : ℝ :=
  ∑ f ∈ Finset.range nsets,
    (sd f).n b x y k * ((sd f).data b x y k - meanData nsets sd b x y k) ^ 2

/-- The floored variance `store` (src lines 978-981): positive raw
variances are kept; otherwise pixels with positive `sumN` receive
`np.sqrt(self.minvar)` and all others zero. -/
noncomputable def varFloored (nsets : ℕ) (sd : SumData ℝ) (minvar : ℝ)
    (b x y : ℕ) (k : Fin 3) : ℝ :=
  if 0 < varRaw nsets sd b x y k then varRaw nsets sd b x y k
  else if 0 < sumN nsets sd b x y then Real.sqrt minvar
  else 0

/-- Small-sample correction denominator `num = ntot**2 - ntot2`. -/
noncomputable def numCorr (nsets : ℕ) (sd : SumData ℝ) (b x y : ℕ) (k : Fin 3) : ℝ :=
  ntot nsets sd b x y k ^ 2 - ntot2 nsets sd b x y k

/-- Bias-corrected variance (src lines 983-985): `ntot * var / num`
where the denominator is positive, the floored variance elsewhere. -/
noncomputable def varCorrected (nsets : ℕ) (sd : SumData ℝ) (minvar : ℝ)
    (b x y : ℕ) (k : Fin 3) : ℝ :=
  if 0 < numCorr nsets sd b x y k then
    ntot nsets sd b x y k * varFloored nsets sd minvar b x y k /
      numCorr nsets sd b x y k
  else varFloored nsets sd minvar b x y k

/-- Output standard deviation `sdData = np.sqrt(var)` (src line 987).
The `maxvar` configuration value is read by the source (line 990) but
the subsequent clamp assigns through a fancy-indexed copy and never
changes `sdData`. -/
noncomputable def sdDataOf (nsets : ℕ) (sd : SumData ℝ) (minvar maxvar : ℝ)
    (b x y : ℕ) (k : Fin 3) : ℝ :=
  Real.sqrt (varCorrected nsets sd minvar b x y k)

/-- `calculateStats`: returns `(ntot, meanData, sdData)`. -/
noncomputable def calculateStats (nsets : ℕ) (sd : SumData ℝ) (minvar maxvar : ℝ) :
    (ℕ → ℕ → ℕ → Fin 3 → ℝ) × (ℕ → ℕ → ℕ → Fin 3 → ℝ) ×
      (ℕ → ℕ → ℕ → Fin 3 → ℝ) :=
  (fun b x y k => ntot nsets sd b x y k,
   fun b x y k => meanData nsets sd b x y k,
   fun b x y k => sdDataOf nsets sd minvar maxvar b x y k)

/-! ### Concrete states used to instantiate the theorems -/

/-- A 2x2 input with sub-cells `[5, 0, 0, 0]`. -/
def blockFive : ℕ → ℕ → ℚ :=
  fun x y => if x = 0 ∧ y = 0 then 5 else 0

/-- One-pixel, one-band sample whose only pixel is corrupt: coverage
kept (`isSnow = 0`), count 1, but first kernel parameter `-1`. -/
def sampleCorrupt : Samples :=
  { ns := 1, nl := 1, nb := 1
    isSnow := fun _ _ => 0
    N := fun _ _ => 1
    data := fun _ _ _ _ => -1 }

/-- One-pixel, one-band sample whose only pixel passes the coverage
filter with count 1 but has first kernel parameter 0, so the corrupt
filter zeroes it (after which the filtered total would be zero). -/
def sampleZeroF0 : Samples :=
  { ns := 1, nl := 1, nb := 1
    isSnow := fun _ _ => 0
    N := fun _ _ => 1
    data := fun _ _ _ _ => 0 }

/-- One-pixel, one-band contributing sample: snow-free pixel, count 1,
all data values 3. -/
def sampleContrib : Samples :=
  { ns := 1, nl := 1, nb := 1
    isSnow := fun _ _ => 0
    N := fun _ _ => 1
    data := fun _ _ _ _ => 3 }

/-- One-pixel, one-band contributing sample with data values 2. -/
def sampleSecond : Samples :=
  { ns := 1, nl := 1, nb := 1
    isSnow := fun _ _ => 0
    N := fun _ _ => 1
    data := fun _ _ _ _ => 2 }

/-- One-pixel sample that is entirely removed by every coverage filter
(`isSnow = -1`, the no-data code). -/
def sampleSkip : Samples :=
  { ns := 1, nl := 1, nb := 1
    isSnow := fun _ _ => -1
    N := fun _ _ => 1
    data := fun _ _ _ _ => 7 }

/-- Accumulator holding the contribution of `sampleContrib` in slot 0. -/
def storedContrib : SumData ℚ :=
  Function.update zeroSumData 0 (storedSlot sampleContrib 2 1)

/-- Raw pixel whose band-quality low nibble is 4 (worse than the worst
acceptable tier 3). -/
def pixelBadQuality : PixelRaw :=
  { qa1 := 0, snowv := 0, anc := 0, bandq := 4, refl := fun _ _ => 0 }

/-- Accumulator slot of a single contributor of weight 1 and data 5. -/
noncomputable def oneFileSlot : Slot ℝ :=
  { n := fun _ _ _ _ => 1
    nSamples := fun _ _ _ => 1
    data := fun _ _ _ _ => 5 }

/-- Accumulator in which exactly one file (slot 0 of 1) contributes. -/
noncomputable def oneFileSum : SumData ℝ := fun _ => oneFileSlot

/-- Accumulator slot of weight 1 and constant data `d`. -/
noncomputable def unitSlot (d : ℝ) : Slot ℝ :=
  { n := fun _ _ _ _ => 1
    nSamples := fun _ _ _ => 1
    data := fun _ _ _ _ => d }

/-- Accumulator with two equal-weight contributors, data 1 and 5. -/
noncomputable def twoFileSum : SumData ℝ :=
  fun f => if f = 0 then unitSlot 1 else unitSlot 5

/-- The all-zero real accumulator. -/
noncomputable def zeroSumDataR : SumData ℝ :=
  fun _ =>
    { n := fun _ _ _ _ => 0
      nSamples := fun _ _ _ => 0
      data := fun _ _ _ _ => 0 }

/-! ### Helper lemmas -/

/-- Masking with `0b1111` is reduction mod 16. -/
theorem and_fifteen (n : ℕ) : n &&& 15 = n % 16 := by
  have h := Nat.and_pow_two_sub_one_eq_mod n 4
  norm_num at h
  exact h

/-- Shifting right by 4 is division by 16. -/
theorem shiftRight_four (n : ℕ) : n >>> 4 = n / 16 := by
  rw [Nat.shiftRight_eq_div_pow]

/-- `rebin` is the block sum divided by the square of the factor. -/
theorem rebin_eq_sum_div (a : ℕ → ℕ → ℚ) (f i j : ℕ) :
    rebin a f i j = blockSum a f i j / ((f : ℚ) * f) := by
  rw [rebin, blockSum, ← Finset.sum_div, div_div]

/-- `rebin` of the non-zero indicator is the non-zero count divided by
the square of the factor. -/
theorem rebin_indicator (a : ℕ → ℕ → ℚ) (f i j : ℕ) :
    rebin (nonzeroIndicator a) f i j = (nonzeroCount a f i j : ℚ) / ((f : ℚ) * f) := by
  have h : blockSum (nonzeroIndicator a) f i j = (nonzeroCount a f i j : ℚ) := by
    rw [blockSum, nonzeroCount]
    push_cast [nonzeroIndicator, apply_ite (fun n : ℕ => (n : ℚ))]
    rfl
  rw [rebin_eq_sum_div, h]

/-- The non-zero count of a block never exceeds the block size. -/
theorem nonzeroCount_le (a : ℕ → ℕ → ℚ) (f i j : ℕ) :
    nonzeroCount a f i j ≤ f * f := by
  rw [nonzeroCount]
  calc (∑ p ∈ Finset.range f, ∑ q ∈ Finset.range f,
        if a (i * f + p) (j * f + q) = 0 then 0 else 1)
      ≤ ∑ _p ∈ Finset.range f, ∑ _q ∈ Finset.range f, 1 := by
        refine Finset.sum_le_sum fun p _ => Finset.sum_le_sum fun q _ => ?_
        split <;> norm_num
    _ = f * f := by simp [mul_comm]

/-- A block with zero non-zero count sums to zero. -/
theorem blockSum_eq_zero (a : ℕ → ℕ → ℚ) (f i j : ℕ)
    (h : nonzeroCount a f i j = 0) : blockSum a f i j = 0 := by
  rw [nonzeroCount, Finset.sum_eq_zero_iff] at h
  refine Finset.sum_eq_zero fun p hp => Finset.sum_eq_zero fun q hq => ?_
  have hpq := (Finset.sum_eq_zero_iff.mp (h p hp)) q hq
  by_contra hne
  simp [hne] at hpq

/-- The single pixel of `sampleCorrupt` trips the corrupt filter. -/
theorem sampleCorrupt_corrupt : corruptExists sampleCorrupt 2 = true := by
  rw [corruptExists, decide_eq_true_eq]
  refine ⟨0, by simp [sampleCorrupt], 0, by simp [sampleCorrupt], ?_, ?_⟩
  · norm_num [f0sum, sampleCorrupt]
  · norm_num [samplesNFiltered, sampleCorrupt]

/-- The single pixel of `sampleZeroF0` trips the corrupt filter. -/
theorem sampleZeroF0_corrupt : corruptExists sampleZeroF0 2 = true := by
  rw [corruptExists, decide_eq_true_eq]
  refine ⟨0, by simp [sampleZeroF0], 0, by simp [sampleZeroF0], ?_, ?_⟩
  · norm_num [f0sum, sampleZeroF0]
  · norm_num [samplesNFiltered, sampleZeroF0]

/-- `sampleContrib` has no corrupt pixel. -/
theorem sampleContrib_not_corrupt : corruptExists sampleContrib 2 = false := by
  rw [corruptExists, decide_eq_false_iff_not]
  rintro ⟨x, hx, y, hy, hle, hpos⟩
  have hx0 : x = 0 := by simpa [sampleContrib, Nat.lt_one_iff] using hx
  have hy0 : y = 0 := by simpa [sampleContrib, Nat.lt_one_iff] using hy
  subst hx0
  subst hy0
  norm_num [f0sum, sampleContrib] at hle

/-- `sampleContrib` has filtered total count 1. -/
theorem sampleContrib_filteredSum : filteredSum sampleContrib 2 = 1 := by
  norm_num [filteredSum, sampleContrib, samplesNFiltered]

/-- `sampleSecond` has no corrupt pixel. -/
theorem sampleSecond_not_corrupt : corruptExists sampleSecond 2 = false := by
  rw [corruptExists, decide_eq_false_iff_not]
  rintro ⟨x, hx, y, hy, hle, hpos⟩
  have hx0 : x = 0 := by simpa [sampleSecond, Nat.lt_one_iff] using hx
  have hy0 : y = 0 := by simpa [sampleSecond, Nat.lt_one_iff] using hy
  subst hx0
  subst hy0
  norm_num [f0sum, sampleSecond] at hle

/-- `sampleSecond` has filtered total count 1. -/
theorem sampleSecond_filteredSum : filteredSum sampleSecond 2 = 1 := by
  norm_num [filteredSum, sampleSecond, samplesNFiltered]

/-- `sampleSkip` has no corrupt pixel (its count plane filters to 0). -/
theorem sampleSkip_not_corrupt : corruptExists sampleSkip 2 = false := by
  rw [corruptExists, decide_eq_false_iff_not]
  rintro ⟨x, hx, y, hy, hle, hpos⟩
  norm_num [samplesNFiltered, sampleSkip] at hpos

/-- `sampleSkip` has filtered total count 0. -/
theorem sampleSkip_filteredSum : filteredSum sampleSkip 2 = 0 := by
  norm_num [filteredSum, sampleSkip, samplesNFiltered]

/-! ### Claim theorems -/

/-- C8: for every array and every optional companion std-dev array,
`shrunk` with factor 1 is the identity: both the data array and, in
paired mode, the std-dev array are returned unchanged. -/
theorem shrunk_factor_one_identity (fdata : ℕ → ℕ → ℝ) (ns nl : ℕ)
    (sdata : Option (ℕ → ℕ → ℝ)) :
    shrunk fdata ns nl 1 sdata = (fdata, sdata) := by
  simp [shrunk]

/-- C9: the decoded quality exponent is the pixel-wise maximum of the
low 4 bits and the next 4 bits of the band-quality field, and validity
is excluded whenever either of the two extracted exponents is at
least 4. -/
theorem decodePixel_band_quality (p : PixelRaw) (nBands : ℕ)
    (snow no_snow : Bool) (backupscale : ℚ) :
    (decodePixel p nBands snow no_snow backupscale).bandQuality =
      max (p.bandq % 16) (p.bandq / 16 % 16) ∧
    ((4 ≤ p.bandq % 16 ∨ 4 ≤ p.bandq / 16 % 16) →
      (decodePixel p nBands snow no_snow backupscale).mask = false) := by
  have h1 : p.bandq &&& 15 = p.bandq % 16 := and_fifteen _
  have h2 : p.bandq >>> 4 &&& 15 = p.bandq / 16 % 16 := by
    rw [shiftRight_four, and_fifteen]
  constructor
  · simp only [decodePixel, h1, h2]
    rcases Nat.lt_or_ge (p.bandq % 16) (p.bandq / 16 % 16) with h | h
    · rw [if_pos h]
      omega
    · rw [if_neg (Nat.not_lt.mpr h)]
      omega
  · intro h
    rcases h with h | h
    · have hh : ¬ p.bandq % 16 < 4 := by omega
      simp [decodePixel, h1, h2, hh]
    · have hh : ¬ p.bandq / 16 % 16 < 4 := by omega
      simp [decodePixel, h1, h2, hh]

/-- C9 witness: a pixel whose band-quality low nibble is 4 is excluded
from validity. -/
theorem decodePixel_band_quality_witness :
    (4 ≤ pixelBadQuality.bandq % 16 ∨ 4 ≤ pixelBadQuality.bandq / 16 % 16) ∧
      (decodePixel pixelBadQuality 1 true true (1 / 2)).mask = false :=
  ⟨Or.inl (by norm_num [pixelBadQuality]),
    (decodePixel_band_quality pixelBadQuality 1 true true (1 / 2)).2
      (Or.inl (by norm_num [pixelBadQuality]))⟩

/-- C10: the decoded snow mask and no-snow mask are disjoint at every
pixel: the snow mask requires snow code 1, the no-snow mask requires
snow code 0, and the multiplication by the validity mask only clears
entries. -/
theorem decodePixel_snow_masks_disjoint (p : PixelRaw) (nBands : ℕ)
    (snow no_snow : Bool) (backupscale : ℚ) :
    ((decodePixel p nBands snow no_snow backupscale).snowMask &&
      (decodePixel p nBands snow no_snow backupscale).noSnowMask) = false := by
  by_cases h : p.snowv = 1
  · have h0 : p.snowv ≠ 0 := by omega
    simp [decodePixel, h, h0]
  · simp [decodePixel, h]

/-- C4: for factor-divisible extents, plain-mode shrink is the
zero-excluding block average: an entirely zero block yields 0 and a
partially non-zero block yields the mean over just its non-zero
sub-cells. -/
theorem shrunkPlain_zero_excluding (a : ℕ → ℕ → ℚ) (ns nl f i j : ℕ)
    (hf : 0 < f) (hns : f ∣ ns) (hnl : f ∣ nl)
    (hi : i < ns / f) (hj : j < nl / f) :
    shrunkPlain a ns nl f i j = zeroExcludingMean a f i j := by
  by_cases h1 : f = 1
  · subst h1
    rw [shrunkPlain, if_pos rfl, zeroExcludingMean, nonzeroCount, blockSum]
    simp only [Finset.sum_range_one, mul_one, add_zero]
    by_cases hz : a i j = 0 <;> simp [hz]
  · have hfne : (f : ℚ) ≠ 0 := Nat.cast_ne_zero.mpr (Nat.pos_iff_ne_zero.mp hf)
    have hff : (0 : ℚ) < (f : ℚ) * f := by positivity
    have hb := rebin_eq_sum_div a f i j
    have hn := rebin_indicator a f i j
    have hCle := nonzeroCount_le a f i j
    rw [shrunkPlain, if_neg h1]
    simp only [hb, hn]
    rcases Nat.eq_zero_or_pos (nonzeroCount a f i j) with hC0 | hCpos
    · have hS0 := blockSum_eq_zero a f i j hC0
      rw [zeroExcludingMean, if_pos hC0, hC0, hS0]
      norm_num
    · rcases Nat.lt_or_ge (nonzeroCount a f i j) (f * f) with hlt | hge
      · have hcond : 0 < (nonzeroCount a f i j : ℚ) / ((f : ℚ) * f) ∧
            (nonzeroCount a f i j : ℚ) / ((f : ℚ) * f) < 1 := by
          constructor
          · exact div_pos (by exact_mod_cast hCpos) hff
          · exact (div_lt_one hff).mpr (by exact_mod_cast hlt)
        rw [if_pos hcond, zeroExcludingMean, if_neg (Nat.pos_iff_ne_zero.mp hCpos)]
        have hCne : (nonzeroCount a f i j : ℚ) ≠ 0 :=
          Nat.cast_ne_zero.mpr (Nat.pos_iff_ne_zero.mp hCpos)
        field_simp
      · have hCeq : nonzeroCount a f i j = f * f := le_antisymm hCle hge
        have hone : (nonzeroCount a f i j : ℚ) / ((f : ℚ) * f) = 1 := by
          rw [hCeq]
          push_cast
          field_simp
        rw [hone]
        norm_num
        rw [zeroExcludingMean, if_neg (by positivity : nonzeroCount a f i j ≠ 0)]
        rw [hCeq]
        push_cast
        ring_nf

/-- C4 witness: the 2x2 block `[5, 0, 0, 0]` shrinks by factor 2 to 5,
the mean of its single non-zero sub-cell, not to the unconditional
block mean 1.25. -/
theorem shrunkPlain_zero_excluding_witness :
    (0 < 2 ∧ 2 ∣ 2 ∧ (0 : ℕ) < 2 / 2) ∧
      shrunkPlain blockFive 2 2 2 0 0 = 5 ∧ (5 : ℚ) ≠ 5 / 4 := by
  refine ⟨by norm_num, ?_, by norm_num⟩
  have h := shrunkPlain_zero_excluding blockFive 2 2 2 0 0 (by norm_num)
    (by norm_num) (by norm_num) (by norm_num) (by norm_num)
  rw [h]
  norm_num [zeroExcludingMean, nonzeroCount, blockSum, blockFive,
    Finset.sum_range_succ]

/-- C5: on a sample with a corrupt pixel (band sum of the first kernel
parameter `≤ 0` while the filtered count is `> 0`), `incrementSamples`
does not proceed with accumulation: after zeroing the count it
evaluates the non-existent attribute `self.ogging` (src line 744, a typo
for `self.logging`) and raises `AttributeError`, modelled as an error
return. -/
theorem incrementSamples_corrupt_raises :
    incrementSamples zeroSumData sampleCorrupt 2 0 1 = Except.error () := by
  simp [incrementSamples, sampleCorrupt_corrupt]

/-- C7: a sample whose only coverage-passing pixel is removed by the
corrupt-pixel filter (so that the post-filter total count is zero) does
not make `incrementSamples` return the accumulator unchanged: the
corrupt branch raises `AttributeError` (src line 744) before the
zero-total check is reached. -/
theorem incrementSamples_filtered_empty_raises :
    incrementSamples zeroSumData sampleZeroF0 2 0 1 = Except.error () := by
  simp [incrementSamples, sampleZeroF0_corrupt]

/-- C6 counterexample: if the second call's sample is entirely removed
by the coverage filter, the second call returns the state unchanged and
the slot keeps the FIRST sample's contribution, which differs from what
a single call with the second sample would store (nothing). -/
theorem incrementSamples_skip_keeps_previous :
    incrementSamples zeroSumData sampleContrib 2 0 1 = Except.ok storedContrib ∧
    incrementSamples storedContrib sampleSkip 2 0 1 = Except.ok storedContrib ∧
    incrementSamples zeroSumData sampleSkip 2 0 1 = Except.ok zeroSumData ∧
    (storedContrib 0).nSamples 0 0 0 ≠ (zeroSumData 0).nSamples 0 0 0 := by
  refine ⟨?_, ?_, ?_, ?_⟩
  · simp [incrementSamples, sampleContrib_not_corrupt, sampleContrib_filteredSum,
      storedContrib]
  · simp [incrementSamples, sampleSkip_not_corrupt, sampleSkip_filteredSum]
  · simp [incrementSamples, sampleSkip_not_corrupt, sampleSkip_filteredSum]
  · have h1 : (storedContrib 0).nSamples 0 0 0 = 1 := by
      norm_num [storedContrib, Function.update_same, storedSlot, shrunkPlain,
        samplesNFiltered, sampleContrib]
    have h0 : (zeroSumData 0).nSamples 0 0 0 = 0 := rfl
    rw [h1, h0]
    norm_num

/-- C6 (amended): calling `accumulate` twice with the same `fileIndex`
overwrites the slot with the second sample's contribution, provided the
second call does not raise (no corrupt pixel) and is not skipped (its
post-filter total count is non-zero); the stored slot then equals what a
single call with the second sample from any starting state stores. -/
theorem incrementSamples_overwrite
    (st st1 : SumData ℚ) (s1 s2 : Samples) (cls : ℤ) (idx shrink : ℕ)
    (h1 : incrementSamples st s1 cls idx shrink = Except.ok st1)
    (h2c : corruptExists s2 cls = false)
    (h2n : filteredSum s2 cls ≠ 0) :
    incrementSamples st1 s2 cls idx shrink =
      Except.ok (Function.update st1 idx (storedSlot s2 cls shrink)) ∧
    ∀ st0 : SumData ℚ, ∃ st2,
      incrementSamples st0 s2 cls idx shrink = Except.ok st2 ∧
      st2 idx = storedSlot s2 cls shrink := by
  have key : ∀ stx : SumData ℚ, incrementSamples stx s2 cls idx shrink =
      Except.ok (Function.update stx idx (storedSlot s2 cls shrink)) := by
    intro stx
    simp [incrementSamples, h2c, h2n]
  exact ⟨key st1, fun st0 => ⟨_, key st0, Function.update_same _ _ _⟩⟩

/-- C6 witness: a concrete second call that stores its sample's slot. -/
theorem incrementSamples_overwrite_witness :
    corruptExists sampleSecond 2 = false ∧ filteredSum sampleSecond 2 ≠ 0 ∧
    incrementSamples zeroSumData sampleSecond 2 0 1 =
      Except.ok (Function.update zeroSumData 0 (storedSlot sampleSecond 2 1)) :=
  ⟨sampleSecond_not_corrupt, by rw [sampleSecond_filteredSum]; norm_num,
    (incrementSamples_overwrite zeroSumData zeroSumData sampleSkip sampleSecond
      2 0 1
      (by simp [incrementSamples, sampleSkip_not_corrupt, sampleSkip_filteredSum])
      sampleSecond_not_corrupt
      (by rw [sampleSecond_filteredSum]; norm_num)).1⟩

/-- C1 counterexample: for the accumulator whose single contributor has
weight 1 and data 5, with `minVariance = 16`, the finalized std-dev is
`sqrt(sqrt(16)) = 2`, not `sqrt(16) = 4` as the claim states (the source
floors the variance at `np.sqrt(self.minvar)` and then takes another
square root). -/
theorem calculateStats_single_contributor_counterexample :
    (calculateStats 1 oneFileSum 16 100).2.1 0 0 0 0 = 5 ∧
    (calculateStats 1 oneFileSum 16 100).2.2 0 0 0 0 ≠ Real.sqrt 16 := by
  have hsumN : sumN 1 oneFileSum 0 0 0 = 1 := by
    simp [sumN, oneFileSum, oneFileSlot]
  have hntot : ntot 1 oneFileSum 0 0 0 0 = 1 := by
    simp [ntot, oneFileSum, oneFileSlot]
  have hntot2 : ntot2 1 oneFileSum 0 0 0 0 = 1 := by
    simp [ntot2, oneFileSum, oneFileSlot]
  have htotal : totalWeighted 1 oneFileSum 0 0 0 0 = 5 := by
    simp [totalWeighted, oneFileSum, oneFileSlot]
  have hmean : meanData 1 oneFileSum 0 0 0 0 = 5 := by
    rw [meanData, if_pos (by rw [hsumN]; norm_num), htotal, hntot]
    norm_num
  have hvar : varRaw 1 oneFileSum 0 0 0 0 = 0 := by
    rw [varRaw, Finset.sum_range_one, hmean]
    simp [oneFileSum, oneFileSlot]
  have hfloor : varFloored 1 oneFileSum 16 0 0 0 0 = Real.sqrt 16 := by
    rw [varFloored, hvar, if_neg (lt_irrefl 0), if_pos (by rw [hsumN]; norm_num)]
  have hnum : numCorr 1 oneFileSum 0 0 0 0 = 0 := by
    rw [numCorr, hntot, hntot2]
    ring
  have hcorr : varCorrected 1 oneFileSum 16 0 0 0 0 = Real.sqrt 16 := by
    rw [varCorrected, if_neg (by rw [hnum]; exact lt_irrefl 0), hfloor]
  have h16 : Real.sqrt 16 = 4 := by
    rw [show (16 : ℝ) = 4 ^ 2 by norm_num, Real.sqrt_sq (by norm_num : (0:ℝ) ≤ 4)]
  have h4 : Real.sqrt 4 = 2 := by
    rw [show (4 : ℝ) = 2 ^ 2 by norm_num, Real.sqrt_sq (by norm_num : (0:ℝ) ≤ 2)]
  refine ⟨hmean, ?_⟩
  have hsd : (calculateStats 1 oneFileSum 16 100).2.2 0 0 0 0 =
      Real.sqrt (Real.sqrt 16) := by
    rw [show (calculateStats 1 oneFileSum 16 100).2.2 0 0 0 0 =
      sdDataOf 1 oneFileSum 16 100 0 0 0 0 from rfl, sdDataOf, hcorr]
  rw [hsd, h16, h4]
  norm_num

/-- C1 (amended): finalize on an accumulator in which exactly one file
contributes to a pixel (weight `w > 0` there, all other files' weights
zero) yields `mean = d` (that file's data value) and
`stdDev = sqrt(sqrt(minVariance))`, i.e. the fourth root of the
configured minimum variance: the bias-correction denominator is `≤ 0`
for a single contributor, so the variance stays at the floor
`np.sqrt(minvar)`, of which the final `np.sqrt` is taken. -/
theorem calculateStats_single_contributor
    (nsets : ℕ) (sd : SumData ℝ) (minvar maxvar : ℝ) (f0 b x y : ℕ) (k : Fin 3)
    (w d : ℝ)
    (hf0 : f0 < nsets)
    (hw : 0 < w)
    (hn : ∀ j : Fin 3, (sd f0).n b x y j = w)
    (hothers : ∀ f, f < nsets → f ≠ f0 → ∀ j : Fin 3, (sd f).n b x y j = 0)
    (hd : (sd f0).data b x y k = d)
    (hinv : ∀ f, f < nsets →
      (sd f).nSamples b x y = if 0 < (sd f).n b x y 0 then 1 else 0) :
    (calculateStats nsets sd minvar maxvar).2.1 b x y k = d ∧
    (calculateStats nsets sd minvar maxvar).2.2 b x y k =
      Real.sqrt (Real.sqrt minvar) := by
  have hmem : f0 ∈ Finset.range nsets := Finset.mem_range.mpr hf0
  have hntot : ntot nsets sd b x y k = w := by
    rw [ntot, Finset.sum_eq_single_of_mem f0 hmem
      (fun f hf hne => hothers f (Finset.mem_range.mp hf) hne k)]
    exact hn k
  have hntot2 : ntot2 nsets sd b x y k = w ^ 2 := by
    rw [ntot2, Finset.sum_eq_single_of_mem f0 hmem
      (fun f hf hne => by
        rw [hothers f (Finset.mem_range.mp hf) hne k]
        ring)]
    rw [hn k]
  have htotal : totalWeighted nsets sd b x y k = d * w := by
    rw [totalWeighted, Finset.sum_eq_single_of_mem f0 hmem
      (fun f hf hne => by
        rw [hothers f (Finset.mem_range.mp hf) hne k]
        ring)]
    rw [hn k, hd]
  have hsumN : sumN nsets sd b x y = 1 := by
    rw [sumN, Finset.sum_eq_single_of_mem f0 hmem
      (fun f hf hne => by
        rw [hinv f (Finset.mem_range.mp hf),
          hothers f (Finset.mem_range.mp hf) hne 0]
        simp)]
    rw [hinv f0 hf0, hn 0, if_pos hw]
  have hmean : meanData nsets sd b x y k = d := by
    rw [meanData, if_pos (by rw [hsumN]; norm_num), htotal, hntot]
    field_simp
  have hvar : varRaw nsets sd b x y k = 0 := by
    rw [varRaw]
    refine Finset.sum_eq_zero fun f hf => ?_
    by_cases hfe : f = f0
    · subst hfe
      rw [hmean, hd]
      ring
    · rw [hothers f (Finset.mem_range.mp hf) hfe k]
      ring
  have hnum : numCorr nsets sd b x y k = 0 := by
    rw [numCorr, hntot, hntot2]
    ring
  have hfloor : varFloored nsets sd minvar b x y k = Real.sqrt minvar := by
    rw [varFloored, hvar, if_neg (lt_irrefl 0), if_pos (by rw [hsumN]; norm_num)]
  have hcorr : varCorrected nsets sd minvar b x y k = Real.sqrt minvar := by
    rw [varCorrected, if_neg (by rw [hnum]; exact lt_irrefl 0), hfloor]
  refine ⟨hmean, ?_⟩
  rw [show (calculateStats nsets sd minvar maxvar).2.2 b x y k =
    sdDataOf nsets sd minvar maxvar b x y k from rfl, sdDataOf, hcorr]

/-- C1 witness: the single-contributor accumulator with `w = 1`,
`d = 5` and `minVariance = 16`. -/
theorem calculateStats_single_contributor_witness :
    (0 : ℝ) < 1 ∧
    (calculateStats 1 oneFileSum 16 100).2.1 0 0 0 0 = 5 ∧
    (calculateStats 1 oneFileSum 16 100).2.2 0 0 0 0 =
      Real.sqrt (Real.sqrt 16) :=
  ⟨by norm_num,
    calculateStats_single_contributor 1 oneFileSum 16 100 0 0 0 0 0 1 5
      (by norm_num) (by norm_num) (fun j => rfl)
      (fun f hf hne => absurd (Nat.lt_one_iff.mp hf) hne) rfl
      (fun f hf => by simp [oneFileSum, oneFileSlot])⟩

/-- C2: the code does NOT clamp the finalized std-dev to
`sqrt(maxVariance)`: for the two-contributor accumulator with weights 1
and data 1 and 5, `minVariance = 1`, `maxVariance = 4`, the corrected
variance is 8 and `calculateStats` returns `stdDev = sqrt 8 > sqrt 4`
at the pixel — the source's floor/clamp lines (988-992) assign into a
fancy-indexed copy and never modify the returned array. -/
theorem calculateStats_no_variance_ceiling :
    (calculateStats 2 twoFileSum 1 4).2.2 0 0 0 0 = Real.sqrt 8 ∧
    Real.sqrt 4 < (calculateStats 2 twoFileSum 1 4).2.2 0 0 0 0 := by
  have hsumN : sumN 2 twoFileSum 0 0 0 = 2 := by
    simp [sumN, Finset.sum_range_succ, twoFileSum, unitSlot]
  have hntot : ntot 2 twoFileSum 0 0 0 0 = 2 := by
    norm_num [ntot, Finset.sum_range_succ, twoFileSum, unitSlot]
  have hntot2 : ntot2 2 twoFileSum 0 0 0 0 = 2 := by
    norm_num [ntot2, Finset.sum_range_succ, twoFileSum, unitSlot]
  have htotal : totalWeighted 2 twoFileSum 0 0 0 0 = 6 := by
    norm_num [totalWeighted, Finset.sum_range_succ, twoFileSum, unitSlot]
  have hmean : meanData 2 twoFileSum 0 0 0 0 = 3 := by
    rw [meanData, if_pos (by rw [hsumN]; norm_num), htotal, hntot]
    norm_num
  have hvar : varRaw 2 twoFileSum 0 0 0 0 = 8 := by
    rw [varRaw, Finset.sum_range_succ, Finset.sum_range_one, hmean]
    norm_num [twoFileSum, unitSlot]
  have hfloor : varFloored 2 twoFileSum 1 0 0 0 0 = 8 := by
    rw [varFloored, hvar, if_pos (by norm_num)]
  have hnum : numCorr 2 twoFileSum 0 0 0 0 = 2 := by
    rw [numCorr, hntot, hntot2]
    norm_num
  have hcorr : varCorrected 2 twoFileSum 1 0 0 0 0 = 8 := by
    rw [varCorrected, if_pos (by rw [hnum]; norm_num), hnum, hntot, hfloor]
    norm_num
  have hsd : (calculateStats 2 twoFileSum 1 4).2.2 0 0 0 0 = Real.sqrt 8 := by
    rw [show (calculateStats 2 twoFileSum 1 4).2.2 0 0 0 0 =
      sdDataOf 2 twoFileSum 1 4 0 0 0 0 from rfl, sdDataOf, hcorr]
  exact ⟨hsd, by
    rw [hsd]
    exact Real.sqrt_lt_sqrt (by norm_num) (by norm_num)⟩

/-- C3: under the accumulator state invariants (non-negative weights,
weights equal across the kernel-parameter axis as stored by
`incrementSamples`, and `nSamples` the boolean cast of positive weight),
every pixel with zero total weight is finalized to mean 0 and std-dev 0,
and every pixel inside the `sumN > 0` division mask has strictly
positive total weight, so each division `calculateStats` performs has a
positive denominator. -/
theorem calculateStats_zero_weight
    (nsets : ℕ) (sd : SumData ℝ) (minvar maxvar : ℝ) (b x y : ℕ) (k : Fin 3)
    (hpos : ∀ f, f < nsets → ∀ j : Fin 3, 0 ≤ (sd f).n b x y j)
    (hk : ∀ f, f < nsets → ∀ j : Fin 3, (sd f).n b x y j = (sd f).n b x y 0)
    (hinv : ∀ f, f < nsets →
      (sd f).nSamples b x y = if 0 < (sd f).n b x y 0 then 1 else 0) :
    ((calculateStats nsets sd minvar maxvar).1 b x y k = 0 →
      (calculateStats nsets sd minvar maxvar).2.1 b x y k = 0 ∧
      (calculateStats nsets sd minvar maxvar).2.2 b x y k = 0) ∧
    (0 < sumN nsets sd b x y →
      0 < (calculateStats nsets sd minvar maxvar).1 b x y k) := by
  constructor
  · intro h0
    have h0' : ntot nsets sd b x y k = 0 := h0
    rw [ntot] at h0'
    have hzero : ∀ f ∈ Finset.range nsets, (sd f).n b x y k = 0 :=
      (Finset.sum_eq_zero_iff_of_nonneg
        (fun f hf => hpos f (Finset.mem_range.mp hf) k)).mp h0'
    have hzero0 : ∀ f, f < nsets → (sd f).n b x y 0 = 0 := fun f hf => by
      rw [← hk f hf k]
      exact hzero f (Finset.mem_range.mpr hf)
    have hsumN : sumN nsets sd b x y = 0 := by
      rw [sumN]
      refine Finset.sum_eq_zero fun f hf => ?_
      rw [hinv f (Finset.mem_range.mp hf), hzero0 f (Finset.mem_range.mp hf)]
      simp
    have hmean : meanData nsets sd b x y k = 0 := by
      rw [meanData, if_neg (by rw [hsumN]; exact lt_irrefl 0)]
    have hvar : varRaw nsets sd b x y k = 0 := by
      rw [varRaw]
      refine Finset.sum_eq_zero fun f hf => ?_
      rw [hzero f hf]
      ring
    have hfloor : varFloored nsets sd minvar b x y k = 0 := by
      rw [varFloored, hvar, if_neg (lt_irrefl 0),
        if_neg (by rw [hsumN]; exact lt_irrefl 0)]
    have hntot2 : ntot2 nsets sd b x y k = 0 := by
      rw [ntot2]
      refine Finset.sum_eq_zero fun f hf => ?_
      rw [hzero f hf]
      ring
    have hnum : numCorr nsets sd b x y k = 0 := by
      rw [numCorr, ntot, h0', hntot2]
      ring
    have hcorr : varCorrected nsets sd minvar b x y k = 0 := by
      rw [varCorrected, if_neg (by rw [hnum]; exact lt_irrefl 0), hfloor]
    refine ⟨hmean, ?_⟩
    rw [show (calculateStats nsets sd minvar maxvar).2.2 b x y k =
      sdDataOf nsets sd minvar maxvar b x y k from rfl, sdDataOf, hcorr,
      Real.sqrt_zero]
  · intro hp
    have hex : ∃ f ∈ Finset.range nsets, (sd f).nSamples b x y ≠ 0 := by
      by_contra hall
      push_neg at hall
      have hz : sumN nsets sd b x y = 0 := by
        rw [sumN]
        exact Finset.sum_eq_zero hall
      rw [hz] at hp
      exact lt_irrefl 0 hp
    obtain ⟨f, hf, hne⟩ := hex
    have hnf0 : 0 < (sd f).n b x y 0 := by
      by_contra hc
      exact hne (by rw [hinv f (Finset.mem_range.mp hf), if_neg hc])
    have hnfk : 0 < (sd f).n b x y k := by
      rw [hk f (Finset.mem_range.mp hf) k]
      exact hnf0
    show 0 < ntot nsets sd b x y k
    rw [ntot]
    exact lt_of_lt_of_le hnfk
      (Finset.single_le_sum (fun g hg => hpos g (Finset.mem_range.mp hg) k) hf)

/-- C3 witness: the all-zero accumulator has zero total weight, zero
mean and zero std-dev at every pixel; shown at pixel `(0,0,0,0)`. -/
theorem calculateStats_zero_weight_witness :
    (calculateStats 1 zeroSumDataR 1 4).2.1 0 0 0 0 = 0 ∧
    (calculateStats 1 zeroSumDataR 1 4).2.2 0 0 0 0 = 0 :=
  (calculateStats_zero_weight 1 zeroSumDataR 1 4 0 0 0 0
      (fun f hf j => le_refl 0) (fun f hf j => rfl)
      (fun f hf => by simp [zeroSumDataR])).1
    (by simp [calculateStats, ntot, zeroSumDataR])

end AlbedoPix
